import Mathlib

set_option maxRecDepth 100000

/-!
Formal model of the prompt-manager secure subsystem.

This file gives a shallow embedding, in Lean 4, of the parts of the
repository that the verified claims are about:

* `src/secure_crypto.py`  — `SecureCrypto`: AES-256-CBC encryption with
  PKCS7 padding (the AES block cipher itself and the PBKDF2 key
  derivation are taken as parameters satisfying the block-cipher
  inverse property; everything around them — padding, CBC chaining,
  blob framing `salt ++ iv ++ ciphertext`, base64 transport, UTF-8
  decoding — is modelled concretely), and the XOR fallback cipher
  (modelled fully concretely, including a complete executable SHA-256).
* `src/secure_session.py` — `SecureSession`: the session file life
  cycle, expiry checking, the authentication loop with its three-attempt
  lockout, and session extension.
* `src/secure_variables.py` — `SecureVariableManager`: the encrypted
  variable store, its read/update operations and the bounded in-memory
  audit log.

Representation conventions, used throughout:

* Python `bytes` values are `List Nat` with every element `< 256`.
* Python `str` values that flow through `.encode()` / `.decode()` are
  represented by their UTF-8 byte lists; `str.encode()` is a bijection
  onto valid UTF-8 byte strings, so byte-level statements transport to
  string-level ones.  Strings that are only compared for equality
  (passwords, password hashes at the session layer) stay `String`.
* `datetime` values are integers (one abstract tick; the claims never
  depend on the tick size).  `timedelta(minutes=m)` is `m` ticks, so a
  tick is one minute.  `isoformat` / `fromisoformat` round-trip, so a
  stored timestamp is modelled by its parsed integer value.
* `os.urandom` results (salt, IV) are explicit parameters.
* Fallible Python code returning `None` on caught exceptions becomes
  `Option`; exceptions that the source does *not* catch are modelled
  explicitly as `raised` outcomes.
-/

/-! ### Base64 (`base64.b64encode` / `base64.b64decode`)

The encoder is exact.  The decoder is exact on every well-formed
encoder output and returns `none` on malformed input; in the source any
decoding exception is caught and converted to `None`, so only the
well-formed behaviour is observable through `decrypt`. -/

def b64chars : List Char :=
  (r"ABCDEFGHIJKLMNOPQRSTUVWXYZabcdefghijklmnopqrstuvwxyz0123456789+/").data

def sixToChar (d : Nat) : Char := b64chars.getD d 'A'

def charIdx (c : Char) : List Char → Nat → Option Nat
  | [], _ => none
  | d :: rest, i => if d = c then some i else charIdx c rest (i + 1)

def charToSix (c : Char) : Option Nat := charIdx c b64chars 0

def b64encodeBytes : List Nat → List Char
  | a :: b :: c :: rest =>
      sixToChar (a / 4) :: sixToChar (a % 4 * 16 + b / 16) ::
      sixToChar (b % 16 * 4 + c / 64) :: sixToChar (c % 64) :: b64encodeBytes rest
  | [a, b] =>
      [sixToChar (a / 4), sixToChar (a % 4 * 16 + b / 16), sixToChar (b % 16 * 4), '=']
  | [a] =>
      [sixToChar (a / 4), sixToChar (a % 4 * 16), '=', '=']
  | [] => []

def b64decodeChars : List Char → Option (List Nat)
  | [] => some []
  | c0 :: c1 :: c2 :: c3 :: rest =>
    match charToSix c0, charToSix c1 with
    | some d0, some d1 =>
      if c2 = '=' then
        if c3 = '=' ∧ rest = [] then some [d0 * 4 + d1 / 16] else none
      else
        match charToSix c2 with
        | some d2 =>
          if c3 = '=' then
            if rest = [] then some [d0 * 4 + d1 / 16, d1 % 16 * 16 + d2 / 4] else none
          else
            match charToSix c3, b64decodeChars rest with
            | some d3, some bs =>
                some ((d0 * 4 + d1 / 16) :: (d1 % 16 * 16 + d2 / 4) ::
                      (d2 % 4 * 64 + d3) :: bs)
            | _, _ => none
        | none => none
    | _, _ => none
  | _ => none

/-! ### Hex encoding (`bytes.hex()`, lowercase) -/

def hexDigit (d : Nat) : Nat := if d < 10 then 48 + d else 87 + d

def hexBytes : List Nat → List Nat
  | [] => []
  | b :: rest => hexDigit (b / 16) :: hexDigit (b % 16) :: hexBytes rest

/-! ### Strict UTF-8 validity (`bytes.decode()` succeeds exactly on these) -/

def isCont (b : Nat) : Bool := 128 ≤ b && b ≤ 191

def isValidUtf8 : List Nat → Bool
  | [] => true
  | b :: rest =>
    if b < 128 then isValidUtf8 rest
    else if 194 ≤ b && b ≤ 223 then
      match rest with
      | c1 :: r => isCont c1 && isValidUtf8 r
      | [] => false
    else if b = 224 then
      match rest with
      | c1 :: c2 :: r => (160 ≤ c1 && c1 ≤ 191) && isCont c2 && isValidUtf8 r
      | _ => false
    else if 225 ≤ b && b ≤ 236 then
      match rest with
      | c1 :: c2 :: r => isCont c1 && isCont c2 && isValidUtf8 r
      | _ => false
    else if b = 237 then
      match rest with
      | c1 :: c2 :: r => (128 ≤ c1 && c1 ≤ 159) && isCont c2 && isValidUtf8 r
      | _ => false
    else if 238 ≤ b && b ≤ 239 then
      match rest with
      | c1 :: c2 :: r => isCont c1 && isCont c2 && isValidUtf8 r
      | _ => false
    else if b = 240 then
      match rest with
      | c1 :: c2 :: c3 :: r => (144 ≤ c1 && c1 ≤ 191) && isCont c2 && isCont c3 && isValidUtf8 r
      | _ => false
    else if 241 ≤ b && b ≤ 243 then
      match rest with
      | c1 :: c2 :: c3 :: r => isCont c1 && isCont c2 && isCont c3 && isValidUtf8 r
      | _ => false
    else if b = 244 then
      match rest with
      | c1 :: c2 :: c3 :: r => (128 ≤ c1 && c1 ≤ 143) && isCont c2 && isCont c3 && isValidUtf8 r
      | _ => false
    else false

/-! ### Keyed XOR stream (`_simple_encrypt` / `_simple_decrypt` core loop) -/

def xorWithKey (key : List Nat) : Nat → List Nat → List Nat
  | _, [] => []
  | i, b :: rest => (b ^^^ key.getD (i % key.length) 0) :: xorWithKey key (i + 1) rest

/-! ### SHA-256 (`hashlib.sha256`), fully executable on `Nat` mod `2^32` -/

def w32 : Nat := 4294967296

def rotr32 (n x : Nat) : Nat := ((x >>> n) ||| (x <<< (32 - n))) % w32

def bigSigma0 (x : Nat) : Nat := rotr32 2 x ^^^ rotr32 13 x ^^^ rotr32 22 x

def bigSigma1 (x : Nat) : Nat := rotr32 6 x ^^^ rotr32 11 x ^^^ rotr32 25 x

def smallSigma0 (x : Nat) : Nat := rotr32 7 x ^^^ rotr32 18 x ^^^ (x >>> 3)

def smallSigma1 (x : Nat) : Nat := rotr32 17 x ^^^ rotr32 19 x ^^^ (x >>> 10)

def shaCh (x y z : Nat) : Nat := (x &&& y) ^^^ ((x ^^^ 4294967295) &&& z)

def shaMaj (x y z : Nat) : Nat := (x &&& y) ^^^ (x &&& z) ^^^ (y &&& z)

def sha256K : List Nat :=
  [1116352408, 1899447441, 3049323471, 3921009573, 961987163, 1508970993,
   2453635748, 2870763221, 3624381080, 310598401, 607225278, 1426881987,
   1925078388, 2162078206, 2614888103, 3248222580, 3835390401, 4022224774,
   264347078, 604807628, 770255983, 1249150122, 1555081692, 1996064986,
   2554220882, 2821834349, 2952996808, 3210313671, 3336571891, 3584528711,
   113926993, 338241895, 666307205, 773529912, 1294757372, 1396182291,
   1695183700, 1986661051, 2177026350, 2456956037, 2730485921, 2820302411,
   3259730800, 3345764771, 3516065817, 3600352804, 4094571909, 275423344,
   430227734, 506948616, 659060556, 883997877, 958139571, 1322822218,
   1537002063, 1747873779, 1955562222, 2024104815, 2227730452, 2361852424,
   2428436474, 2756734187, 3204031479, 3329325298]

structure Sha256State where
  a : Nat
  b : Nat
  c : Nat
  d : Nat
  e : Nat
  f : Nat
  g : Nat
  h : Nat
deriving DecidableEq, Repr

def sha256InitState : Sha256State :=
  ⟨1779033703, 3144134277, 1013904242, 2773480762, 1359893119, 2600822924, 528734635, 1541459225⟩

def beBytes8 (n : Nat) : List Nat :=
  [(n >>> 56) &&& 255, (n >>> 48) &&& 255, (n >>> 40) &&& 255, (n >>> 32) &&& 255,
   (n >>> 24) &&& 255, (n >>> 16) &&& 255, (n >>> 8) &&& 255, n &&& 255]

def sha256pad (msg : List Nat) : List Nat :=
  msg ++ [128] ++ List.replicate ((64 - (msg.length + 9) % 64) % 64) 0 ++ beBytes8 (msg.length * 8)

/-- Chunk a list into consecutive pieces of `k` elements; `fuel` bounds the
recursion so the definition is structural and kernel-reducible. -/
def chunkGo (k : Nat) : Nat → List Nat → List (List Nat)
  | _, [] => []
  | 0, _ :: _ => []
  | fuel + 1, x :: xs => (x :: xs).take k :: chunkGo k fuel ((x :: xs).drop k)

def chunks (k : Nat) (l : List Nat) : List (List Nat) := chunkGo k l.length l

def beWord (l : List Nat) : Nat := l.foldl (fun acc b => acc * 256 + b) 0

def blockWords (block : List Nat) : List Nat := (chunks 4 block).map beWord

def extendSchedule (w : List Nat) : List Nat :=
  (List.range 48).foldl
    (fun acc _ =>
      acc ++ [(smallSigma1 (acc.getD (acc.length - 2) 0) + acc.getD (acc.length - 7) 0 +
               smallSigma0 (acc.getD (acc.length - 15) 0) + acc.getD (acc.length - 16) 0) % w32])
    w

def sha256Round (st : Sha256State) (k w : Nat) : Sha256State :=
  let t1 := (st.h + bigSigma1 st.e + shaCh st.e st.f st.g + k + w) % w32
  let t2 := (bigSigma0 st.a + shaMaj st.a st.b st.c) % w32
  ⟨(t1 + t2) % w32, st.a, st.b, st.c, (st.d + t1) % w32, st.e, st.f, st.g⟩

def processBlock (st : Sha256State) (block : List Nat) : Sha256State :=
  let w := extendSchedule (blockWords block)
  let st2 := (List.zip sha256K w).foldl (fun s kw => sha256Round s kw.1 kw.2) st
  ⟨(st.a + st2.a) % w32, (st.b + st2.b) % w32, (st.c + st2.c) % w32, (st.d + st2.d) % w32,
   (st.e + st2.e) % w32, (st.f + st2.f) % w32, (st.g + st2.g) % w32, (st.h + st2.h) % w32⟩

def wordBytes (w : Nat) : List Nat :=
  [(w >>> 24) &&& 255, (w >>> 16) &&& 255, (w >>> 8) &&& 255, w &&& 255]

def sha256digest (st : Sha256State) : List Nat :=
  wordBytes st.a ++ wordBytes st.b ++ wordBytes st.c ++ wordBytes st.d ++
  wordBytes st.e ++ wordBytes st.f ++ wordBytes st.g ++ wordBytes st.h

def sha256 (msg : List Nat) : List Nat :=
  sha256digest ((chunks 64 (sha256pad msg)).foldl processBlock sha256InitState)

/-! ### PKCS7 padding (`cryptography.hazmat.primitives.padding.PKCS7(128)`) -/

def pkcs7pad (l : List Nat) : List Nat :=
  l ++ List.replicate (16 - l.length % 16) (16 - l.length % 16)

/-- Strict PKCS7 unpadder: total length a positive multiple of 16, final
byte `p` in `1..16`, last `p` bytes all equal to `p`; raises (here:
`none`) otherwise. -/
def pkcs7unpad (l : List Nat) : Option (List Nat) :=
  if l.length % 16 = 0 ∧ l ≠ [] then
    if 1 ≤ l.getD (l.length - 1) 0 ∧ l.getD (l.length - 1) 0 ≤ 16 ∧
       l.drop (l.length - l.getD (l.length - 1) 0) =
         List.replicate (l.getD (l.length - 1) 0) (l.getD (l.length - 1) 0) then
      some (l.take (l.length - l.getD (l.length - 1) 0))
    else none
  else none

/-! ### CBC mode over an abstract block cipher

`E`/`D` stand for single-block AES-256 encryption/decryption under a
32-byte key; the source obtains them from the `cryptography` library.
They are parameters here: the round-trip and rejection theorems hold
for any pair satisfying the block-cipher inverse property (which AES
does), and nothing below depends on further AES internals. -/

def xorBytes (a b : List Nat) : List Nat := List.zipWith (· ^^^ ·) a b

def cbcEncBlocks (E : List Nat → List Nat → List Nat) (key : List Nat) :
    List Nat → List (List Nat) → List (List Nat)
  | _, [] => []
  | prev, blk :: rest =>
      E key (xorBytes prev blk) :: cbcEncBlocks E key (E key (xorBytes prev blk)) rest

def cbcDecBlocks (D : List Nat → List Nat → List Nat) (key : List Nat) :
    List Nat → List (List Nat) → List (List Nat)
  | _, [] => []
  | prev, cblk :: rest => xorBytes (D key cblk) prev :: cbcDecBlocks D key cblk rest

namespace SecureCrypto

/-- Model of `SecureCrypto.encrypt` (the AES-256-CBC path).  `E` is the
block cipher, `kdf` models `_derive_key` (PBKDF2-HMAC-SHA256 of the
password-hash bytes and the salt; its internals are irrelevant to every
claim, only that both sides derive the same key from the same inputs).
`salt` and `iv` are the `os.urandom(16)` draws. -/
def encrypt (E : List Nat → List Nat → List Nat) (kdf : List Nat → List Nat → List Nat)
    (plaintext pwHash salt iv : List Nat) : String :=
  String.mk (b64encodeBytes
    (salt ++ iv ++ (cbcEncBlocks E (kdf pwHash salt) iv (chunks 16 (pkcs7pad plaintext))).flatten))

/-- Model of `SecureCrypto.decrypt` (the AES-256-CBC path).  Every
failure the source catches (base64 error, bad IV size, ciphertext not a
block multiple, padding error, UTF-8 decode error) yields `none`. -/
def decrypt (D : List Nat → List Nat → List Nat) (kdf : List Nat → List Nat → List Nat)
    (blob : String) (pwHash : List Nat) : Option (List Nat) :=
  match b64decodeChars blob.data with
  | none => none
  | some data =>
    if ((data.drop 16).take 16).length = 16 ∧ (data.drop 32).length % 16 = 0 then
      match pkcs7unpad ((cbcDecBlocks D (kdf pwHash (data.take 16)) ((data.drop 16).take 16)
                          (chunks 16 (data.drop 32))).flatten) with
      | none => none
      | some pt => if isValidUtf8 pt then some pt else none
    else none

/-- Model of `SecureCrypto._simple_encrypt` (XOR fallback path), fully
concrete: key = SHA-256(pwHash bytes ++ ascii hex of salt), each
plaintext byte XORed with `key[i % 32]`, blob = base64(salt ++ xored).
`salt` is the `os.urandom(16)` draw. -/
def simple_encrypt (plaintext pwHash salt : List Nat) : String :=
  String.mk (b64encodeBytes
    (salt ++ xorWithKey (sha256 (pwHash ++ hexBytes salt)) 0 plaintext))

/-- Model of `SecureCrypto._simple_decrypt` (XOR fallback path).  The
only failure points in the source are base64 decoding and the final
`bytes.decode()`; both yield `none` here. -/
def simple_decrypt (blob : String) (pwHash : List Nat) : Option (List Nat) :=
  match b64decodeChars blob.data with
  | none => none
  | some data =>
    if isValidUtf8 (xorWithKey (sha256 (pwHash ++ hexBytes (data.take 16))) 0 (data.drop 16)) then
      some (xorWithKey (sha256 (pwHash ++ hexBytes (data.take 16))) 0 (data.drop 16))
    else none

end SecureCrypto

/-! ### Session layer (`src/secure_session.py`)

The session file lives at a fixed temp path; its possible contents are
partitioned by how `_get_session_data` reacts to them:

* `missing`      — file absent (`os.path.exists` false);
* `invalidJson`  — `json.load` raises `JSONDecodeError` (caught);
* `jsonNonDict`  — valid JSON whose top level is not an object, e.g.
  `[1, 2, 3]`: `data.get` raises `AttributeError`, which the `except`
  clause does NOT list, so the exception escapes;
* `dictBadExpiry k` — a JSON object whose `expires_at` is missing
  (`.get` yields `''`, `fromisoformat` raises `ValueError`, caught),
  is not a string (`fromisoformat` raises `TypeError`, NOT caught), or
  is a string that is not ISO format (`ValueError`, caught);
* `valid r`      — a JSON object with a parseable `expires_at` (and the
  other fields `_create_session` writes).

Timestamps are integers measured in minutes (see the header). -/

structure SessionRecord where
  password_hash : String
  created_at : Int
  expires_at : Int
  access_count : Nat
deriving DecidableEq, Repr

inductive BadExpiry
  | missingKey
  | notString
  | notIso
deriving DecidableEq, Repr

inductive SessFile
  | missing
  | invalidJson
  | jsonNonDict
  | dictBadExpiry (k : BadExpiry)
  | valid (r : SessionRecord)
deriving DecidableEq, Repr

/-- Outcome of `_get_session_data`: the returned value, or an uncaught
exception by name. -/
inductive GetOutcome
  | ok (r : SessionRecord)
  | noSession
  | raised (e : String)
deriving DecidableEq, Repr

namespace SecureSession

/-- Model of `SecureSession._get_session_data`, taking the current file
content and `datetime.now()`; returns the outcome together with the
file content afterwards (the function deletes the file on expiry and on
the corruption cases it manages to catch). -/
def getSessionData : SessFile → Int → GetOutcome × SessFile
  | .missing, _ => (.noSession, .missing)
  | .invalidJson, _ => (.noSession, .missing)
  | .jsonNonDict, _ => (.raised (r"AttributeError"), .jsonNonDict)
  | .dictBadExpiry .missingKey, _ => (.noSession, .missing)
  | .dictBadExpiry .notString, _ => (.raised (r"TypeError"), .dictBadExpiry .notString)
  | .dictBadExpiry .notIso, _ => (.noSession, .missing)
  | .valid r, now =>
      if now > r.expires_at then (.noSession, .missing) else (.ok r, .valid r)

/-- Model of `SecureSession.is_authenticated`; `Except.error` records an
exception escaping to the caller. -/
def isAuthenticated (f : SessFile) (now : Int) : Except String Bool × SessFile :=
  match getSessionData f now with
  | (.ok _, f2) => (.ok true, f2)
  | (.noSession, f2) => (.ok false, f2)
  | (.raised e, f2) => (.error e, f2)

/-- Model of `SecureSession._prompt_for_password` with `is_setup=False`:
one `getpass` call, consuming the head of the input stream.  (Streams in
the theorems below always hold enough entries; an exhausted stream is
modelled as returning the empty password.) -/
def promptTake : List String → String × List String
  | [] => (r"", [])
  | p :: r => (p, r)

/-- Model of `SecureSession._prompt_for_password` with `is_setup=True`:
two `getpass` calls (password and confirmation); returns the empty
string when they differ or the password is shorter than 8 characters. -/
def promptSetup (inputs : List String) : String × List String :=
  match promptTake inputs with
  | (p, r1) =>
    match promptTake r1 with
    | (c, r2) => (if p ≠ c then (r"") else if p.length < 8 then (r"") else p, r2)

/-- Record written by `SecureSession._create_session`. -/
def createSession (ph : String) (ttl now : Int) : SessionRecord :=
  { password_hash := ph, created_at := now, expires_at := now + ttl, access_count := 0 }

/-- The `while attempts < self.max_attempts` loop of
`SecureSession.authenticate`.  `hp` models `_hash_password` (PBKDF2 of
the password with the machine-derived salt), `storedHash` the result of
`_get_stored_password_hash`, `storeOk` whether `_store_password_hash`
succeeds.  Returns (success, session record written if any, remaining
input stream). -/
def authLoop (hp : String → String) (storedHash : Option String) (storeOk : Bool)
    (ttl now : Int) : Nat → List String → Bool × Option SessionRecord × List String
  | 0, inputs => (false, none, inputs)
  | n + 1, inputs =>
    match (if storedHash.isNone then promptSetup inputs else promptTake inputs) with
    | (password, rest) =>
      if password = (r"") then authLoop hp storedHash storeOk ttl now n rest
      else
        match storedHash with
        | none =>
          if storeOk then (true, some (createSession (hp password) ttl now), rest)
          else (false, none, rest)
        | some sh =>
          if hp password = sh then (true, some (createSession (hp password) ttl now), rest)
          else authLoop hp storedHash storeOk ttl now n rest

/-- Outcome of `SecureSession.authenticate`: the returned boolean (or an
uncaught exception), the session file afterwards, and the unconsumed
password prompts. -/
inductive AuthOut
  | ok (success : Bool) (f : SessFile) (remaining : List String)
  | raised (e : String) (f : SessFile) (remaining : List String)
deriving DecidableEq, Repr

/-- Model of `SecureSession.authenticate` (`max_attempts = 3`). -/
def authenticate (hp : String → String) (storedHash : Option String) (storeOk : Bool)
    (ttl : Int) (f : SessFile) (now : Int) (inputs : List String) (forceNew : Bool) : AuthOut :=
  if forceNew then
    match authLoop hp storedHash storeOk ttl now 3 inputs with
    | (success, created, rem) =>
      .ok success (match created with | some r => .valid r | none => f) rem
  else
    match getSessionData f now with
    | (.ok r, _) => .ok true (.valid { r with access_count := r.access_count + 1 }) inputs
    | (.raised e, f2) => .raised e f2 inputs
    | (.noSession, f2) =>
      match authLoop hp storedHash storeOk ttl now 3 inputs with
      | (success, created, rem) =>
        .ok success (match created with | some r => .valid r | none => f2) rem

/-- Outcome of `SecureSession.extend_session`. -/
inductive ExtOut
  | ok (success : Bool) (f : SessFile)
  | raised (e : String) (f : SessFile)
deriving DecidableEq, Repr

/-- Model of `SecureSession.extend_session`: on a valid session the new
expiry is the previously stored expiry plus `additional_minutes`
(defaulting to the configured TTL); otherwise returns false.  The file
write is modelled as succeeding. -/
def extendSession (ttl : Int) (f : SessFile) (now : Int) (additionalMinutes : Option Int) :
    ExtOut :=
  match getSessionData f now with
  | (.noSession, f2) => .ok false f2
  | (.raised e, f2) => .raised e f2
  | (.ok r, _) =>
      .ok true (.valid { r with expires_at := r.expires_at + additionalMinutes.getD ttl })

end SecureSession

/-! ### Variable store layer (`src/secure_variables.py`)

The store file content is a JSON object; the claims only concern store
files of the shape `_save_secure_data` writes, modelled by `SecureData`.
Record fields mirror the dict keys; `used_count` is `Option Nat`
because `get_secure_variable` reads it with `.get('used_count', 0)`.
Python dicts preserve insertion order and the store keys are unique, so
the dict is an association list with `lookupVar` / `updateVar` acting on
the first (only) matching key.

The `crypto.encrypt` / `crypto.decrypt` calls are parameters (`enc`,
`dec`): which concrete cipher path runs depends on library
availability, and `encrypt` additionally draws fresh randomness, so at
this layer both are opaque functions of the blob and password hash.

The `_log_audit_event` calls made by these operations only append to the
in-memory `audit_log` list; they never touch the store, the session file
or the results, so the audit log is modelled separately by
`logAuditEvent` below and not threaded through the store operations. -/

structure SecureVarRecord where
  encrypted_value : String
  encrypted_description : String
  is_secure : Bool
  created_at : Int
  used_count : Option Nat
  last_accessed : Option Int
  encrypted_default : Option String
  last_modified : Option Int
deriving DecidableEq, Repr

structure StoreMetadata where
  created_at : Int
  version : String
  last_modified : Option Int
deriving DecidableEq, Repr

structure SecureData where
  secure_variables : List (String × SecureVarRecord)
  metadata : StoreMetadata
deriving DecidableEq, Repr

def lookupVar (name : String) : List (String × SecureVarRecord) → Option SecureVarRecord
  | [] => none
  | (n, v) :: rest => if n = name then some v else lookupVar name rest

def updateVar (name : String) (v : SecureVarRecord) :
    List (String × SecureVarRecord) → List (String × SecureVarRecord)
  | [] => []
  | (n, w) :: rest => if n = name then (n, v) :: rest else (n, w) :: updateVar name v rest

/-- Python truthiness of an optional string argument (`if description:`). -/
def truthy : Option String → Bool
  | none => false
  | some s => s != (r"")

namespace SecureVariableManager

/-- Result of `get_secure_variable`: the decrypted value (or `None`),
session file and store afterwards, whether `_save_secure_data` ran,
unconsumed prompts, and any uncaught exception. -/
structure GetVarOut where
  result : Option String
  sess : SessFile
  store : SecureData
  saved : Bool
  remaining : List String
  exc : Option String
deriving DecidableEq, Repr

/-- Body of `get_secure_variable` after the authentication guard:
`_get_password_hash` (a second `_get_session_data` read, with the
source's `if not password_hash` truthiness test, which treats an empty
hash like an absent one), the name lookup, decryption, and on success
the stat update plus save. -/
def getAfterAuth (dec : String → String → Option String) (sess : SessFile)
    (store : SecureData) (name : String) (now : Int) (rem : List String) : GetVarOut :=
  match SecureSession.getSessionData sess now with
  | (.raised e, f3) => ⟨none, f3, store, false, rem, some e⟩
  | (.noSession, f3) => ⟨none, f3, store, false, rem, none⟩
  | (.ok r, f3) =>
    if r.password_hash = (r"") then ⟨none, f3, store, false, rem, none⟩ else
    match lookupVar name store.secure_variables with
    | none => ⟨none, f3, store, false, rem, none⟩
    | some v =>
      match dec v.encrypted_value r.password_hash with
      | some d =>
        ⟨some d, f3,
         { store with
            secure_variables := updateVar name
              { v with used_count := some (v.used_count.getD 0 + 1),
                       last_accessed := some now } store.secure_variables },
         true, rem, none⟩
      | none => ⟨none, f3, store, false, rem, none⟩

/-- Model of `SecureVariableManager.get_secure_variable`. -/
def getSecureVariable (dec : String → String → Option String) (hp : String → String)
    (storedHash : Option String) (storeOk : Bool) (ttl : Int) (sess : SessFile)
    (store : SecureData) (name : String) (now : Int) (inputs : List String) : GetVarOut :=
  match SecureSession.isAuthenticated sess now with
  | (.error e, f1) => ⟨none, f1, store, false, inputs, some e⟩
  | (.ok true, f1) => getAfterAuth dec f1 store name now inputs
  | (.ok false, f1) =>
    match SecureSession.authenticate hp storedHash storeOk ttl f1 now inputs false with
    | .raised e f2 rem2 => ⟨none, f2, store, false, rem2, some e⟩
    | .ok false f2 rem2 => ⟨none, f2, store, false, rem2, none⟩
    | .ok true f2 rem2 => getAfterAuth dec f2 store name now rem2

/-- Result of `update_secure_variable`. -/
structure UpdateOut where
  ok : Bool
  sess : SessFile
  store : SecureData
  saved : Bool
  remaining : List String
  exc : Option String
deriving DecidableEq, Repr

/-- Body of `update_secure_variable` after the authentication guard.
`if description:` and `if value:` use Python truthiness, so an empty
string behaves like omission for those two fields; `default_value` is
compared against `None` first and an empty string then *removes* the
stored default. -/
def updateAfterAuth (enc : String → String → String) (sess : SessFile) (store : SecureData)
    (name : String) (description value default_value : Option String) (now : Int)
    (rem : List String) : UpdateOut :=
  match SecureSession.getSessionData sess now with
  | (.raised e, f3) => ⟨false, f3, store, false, rem, some e⟩
  | (.noSession, f3) => ⟨false, f3, store, false, rem, none⟩
  | (.ok r, f3) =>
    if r.password_hash = (r"") then ⟨false, f3, store, false, rem, none⟩ else
    match lookupVar name store.secure_variables with
    | none => ⟨false, f3, store, false, rem, none⟩
    | some v =>
      let v1 := if truthy description then
          { v with encrypted_description := enc (description.getD (r"")) r.password_hash } else v
      let v2 := if truthy value then
          { v1 with encrypted_value := enc (value.getD (r"")) r.password_hash } else v1
      let v3 := match default_value with
        | none => v2
        | some dv =>
          if dv ≠ (r"") then { v2 with encrypted_default := some (enc dv r.password_hash) }
          else { v2 with encrypted_default := none }
      ⟨true, f3,
       { store with
          secure_variables := updateVar name { v3 with last_modified := some now }
            store.secure_variables,
          metadata := { store.metadata with last_modified := some now } },
       true, rem, none⟩

/-- Model of `SecureVariableManager.update_secure_variable`. -/
def updateSecureVariable (enc : String → String → String) (hp : String → String)
    (storedHash : Option String) (storeOk : Bool) (ttl : Int) (sess : SessFile)
    (store : SecureData) (name : String) (description value default_value : Option String)
    (now : Int) (inputs : List String) : UpdateOut :=
  match SecureSession.isAuthenticated sess now with
  | (.error e, f1) => ⟨false, f1, store, false, inputs, some e⟩
  | (.ok true, f1) => updateAfterAuth enc f1 store name description value default_value now inputs
  | (.ok false, f1) =>
    match SecureSession.authenticate hp storedHash storeOk ttl f1 now inputs false with
    | .raised e f2 rem2 => ⟨false, f2, store, false, rem2, some e⟩
    | .ok false f2 rem2 => ⟨false, f2, store, false, rem2, none⟩
    | .ok true f2 rem2 => updateAfterAuth enc f2 store name description value default_value now rem2

/-- One audit record (`_log_audit_event`'s `event` dict). -/
structure AuditEvent where
  timestamp : Int
  action : String
  variable_name : String
  success : Bool
  user : String
  details : Option String
deriving DecidableEq, Repr

/-- Model of `SecureVariableManager._log_audit_event`: append, then keep
only the most recent 100 entries. -/
def logAuditEvent (log : List AuditEvent) (e : AuditEvent) : List AuditEvent :=
  if (log ++ [e]).length > 100 then (log ++ [e]).drop ((log ++ [e]).length - 100)
  else log ++ [e]

end SecureVariableManager

/-! ### Concrete fixtures used to exercise the store operations -/

def exampleSessionRecord : SessionRecord :=
  { password_hash := (r"h"), created_at := 0, expires_at := 100, access_count := 0 }

def exampleRecord : SecureVarRecord :=
  { encrypted_value := (r"ev"), encrypted_description := (r"ed"), is_secure := true,
    created_at := 0, used_count := some 0, last_accessed := none,
    encrypted_default := some (r"dv"), last_modified := none }

def exampleStore : SecureData :=
  { secure_variables := [((r"k"), exampleRecord)],
    metadata := { created_at := 0, version := (r"1"), last_modified := none } }

/-! ## Theorems -/

/-! ### Base64 round-trip -/

theorem charToSix_sixToChar : ∀ d : Nat, d < 64 → charToSix (sixToChar d) = some d := by decide

theorem sixToChar_ne_pad : ∀ d : Nat, d < 64 → sixToChar d ≠ '=' := by decide

theorem b64_roundtrip : ∀ l : List Nat, (∀ b ∈ l, b < 256) →
    b64decodeChars (b64encodeBytes l) = some l
  | [] => fun _ => rfl
  | [a] => fun h => by
      have ha : a < 256 := h a (by simp)
      have h0 := charToSix_sixToChar (a / 4) (by omega)
      have h1 := charToSix_sixToChar (a % 4 * 16) (by omega)
      simp [b64encodeBytes, b64decodeChars, h0, h1]
      omega
  | [a, b] => fun h => by
      have ha : a < 256 := h a (by simp)
      have hb : b < 256 := h b (by simp)
      have h0 := charToSix_sixToChar (a / 4) (by omega)
      have h1 := charToSix_sixToChar (a % 4 * 16 + b / 16) (by omega)
      have h2 := charToSix_sixToChar (b % 16 * 4) (by omega)
      have hne := sixToChar_ne_pad (b % 16 * 4) (by omega)
      simp [b64encodeBytes, b64decodeChars, h0, h1, h2, hne]
      omega
  | a :: b :: c :: rest => fun h => by
      have ha : a < 256 := h a (by simp)
      have hb : b < 256 := h b (by simp)
      have hc : c < 256 := h c (by simp)
      have h0 := charToSix_sixToChar (a / 4) (by omega)
      have h1 := charToSix_sixToChar (a % 4 * 16 + b / 16) (by omega)
      have h2 := charToSix_sixToChar (b % 16 * 4 + c / 64) (by omega)
      have h3 := charToSix_sixToChar (c % 64) (by omega)
      have hne2 := sixToChar_ne_pad (b % 16 * 4 + c / 64) (by omega)
      have hne3 := sixToChar_ne_pad (c % 64) (by omega)
      have hr := b64_roundtrip rest (fun x hx => h x (by simp [hx]))
      simp [b64encodeBytes, b64decodeChars, h0, h1, h2, h3, hne2, hne3, hr]
      refine ⟨by omega, by omega, by omega⟩

/-! ### XOR stream and SHA-256 digest facts -/

theorem getD_lt_256 : ∀ (key : List Nat), (∀ x ∈ key, x < 256) → ∀ i, key.getD i 0 < 256
  | [], _, _ => by simp [List.getD]
  | k :: rest, h, 0 => h k (by simp)
  | k :: rest, h, i + 1 => getD_lt_256 rest (fun x hx => h x (by simp [hx])) i

theorem xorWithKey_length (key : List Nat) : ∀ i l, (xorWithKey key i l).length = l.length
  | _, [] => rfl
  | i, b :: rest => by simp [xorWithKey, xorWithKey_length key (i + 1) rest]

theorem xorWithKey_lt (key : List Nat) (hk : ∀ x ∈ key, x < 256) :
    ∀ i l, (∀ b ∈ l, b < 256) → ∀ x ∈ xorWithKey key i l, x < 256
  | _, [], _ => by simp [xorWithKey]
  | i, b :: rest, h => by
      intro x hx
      simp only [xorWithKey, List.mem_cons] at hx
      rcases hx with hx | hx
      · subst hx
        exact Nat.xor_lt_two_pow (n := 8) (h b (by simp)) (getD_lt_256 key hk _)
      · exact xorWithKey_lt key hk (i + 1) rest (fun y hy => h y (by simp [hy])) x hx

theorem xorWithKey_involution (key : List Nat) :
    ∀ i l, xorWithKey key i (xorWithKey key i l) = l
  | _, [] => rfl
  | i, b :: rest => by
      simp [xorWithKey, xorWithKey_involution key (i + 1) rest, Nat.xor_assoc, Nat.xor_self,
        Nat.xor_zero]

theorem wordBytes_lt (w : Nat) : ∀ x ∈ wordBytes w, x < 256 := by
  simp only [wordBytes, List.mem_cons, List.not_mem_nil, or_false]
  rintro x (rfl | rfl | rfl | rfl) <;> exact Nat.lt_succ_of_le Nat.and_le_right

theorem sha256_lt (msg : List Nat) : ∀ x ∈ sha256 msg, x < 256 := by
  unfold sha256 sha256digest
  simp only [List.forall_mem_append]
  exact ⟨⟨⟨⟨⟨⟨⟨wordBytes_lt _, wordBytes_lt _⟩, wordBytes_lt _⟩, wordBytes_lt _⟩,
    wordBytes_lt _⟩, wordBytes_lt _⟩, wordBytes_lt _⟩, wordBytes_lt _⟩

theorem sha256_length (msg : List Nat) : (sha256 msg).length = 32 := by
  simp [sha256, sha256digest, wordBytes]

/-! ### Facts about `take` / `drop` on the blob framing -/

theorem take_len_append (l l' : List Nat) (n : Nat) (h : l.length = n) :
    (l ++ l').take n = l := by
  subst h; exact List.take_left l l'

theorem drop_len_append (l l' : List Nat) (n : Nat) (h : l.length = n) :
    (l ++ l').drop n = l' := by
  subst h; exact List.drop_left l l'

/-! ### The XOR fallback path -/

theorem simple_roundtrip (pt pwHash salt : List Nat)
    (hpt : ∀ b ∈ pt, b < 256) (hsalt : ∀ b ∈ salt, b < 256)
    (hsaltlen : salt.length = 16) (hutf : isValidUtf8 pt = true) :
    SecureCrypto.simple_decrypt (SecureCrypto.simple_encrypt pt pwHash salt) pwHash = some pt := by
  have key_lt := sha256_lt (pwHash ++ hexBytes salt)
  have hwf : ∀ b ∈ salt ++ xorWithKey (sha256 (pwHash ++ hexBytes salt)) 0 pt, b < 256 :=
    List.forall_mem_append.mpr ⟨hsalt, xorWithKey_lt _ key_lt 0 pt hpt⟩
  unfold SecureCrypto.simple_encrypt SecureCrypto.simple_decrypt
  have hstr : (String.mk (b64encodeBytes
      (salt ++ xorWithKey (sha256 (pwHash ++ hexBytes salt)) 0 pt))).data =
      b64encodeBytes (salt ++ xorWithKey (sha256 (pwHash ++ hexBytes salt)) 0 pt) := rfl
  rw [hstr, b64_roundtrip _ hwf]
  simp only [take_len_append _ _ _ hsaltlen, drop_len_append _ _ _ hsaltlen,
    xorWithKey_involution, hutf, if_true]

theorem simple_decrypt_wrong_key (pt h1 h2 salt : List Nat)
    (hpt : ∀ b ∈ pt, b < 256) (hsalt : ∀ b ∈ salt, b < 256) (hsaltlen : salt.length = 16) :
    SecureCrypto.simple_decrypt (SecureCrypto.simple_encrypt pt h1 salt) h2 =
      (if isValidUtf8 (xorWithKey (sha256 (h2 ++ hexBytes salt)) 0
            (xorWithKey (sha256 (h1 ++ hexBytes salt)) 0 pt)) = true
       then some (xorWithKey (sha256 (h2 ++ hexBytes salt)) 0
            (xorWithKey (sha256 (h1 ++ hexBytes salt)) 0 pt))
       else none) := by
  have key_lt := sha256_lt (h1 ++ hexBytes salt)
  have hwf : ∀ b ∈ salt ++ xorWithKey (sha256 (h1 ++ hexBytes salt)) 0 pt, b < 256 :=
    List.forall_mem_append.mpr ⟨hsalt, xorWithKey_lt _ key_lt 0 pt hpt⟩
  unfold SecureCrypto.simple_encrypt SecureCrypto.simple_decrypt
  have hstr : (String.mk (b64encodeBytes
      (salt ++ xorWithKey (sha256 (h1 ++ hexBytes salt)) 0 pt))).data =
      b64encodeBytes (salt ++ xorWithKey (sha256 (h1 ++ hexBytes salt)) 0 pt) := rfl
  rw [hstr, b64_roundtrip _ hwf]
  simp only [take_len_append _ _ _ hsaltlen, drop_len_append _ _ _ hsaltlen]

/-! ### Chunking into 16-byte blocks -/

theorem chunkGo_spec16 : ∀ (fuel : Nat) (l : List Nat), l.length ≤ fuel → l.length % 16 = 0 →
    (∀ b ∈ chunkGo 16 fuel l, b.length = 16) ∧ (chunkGo 16 fuel l).flatten = l := by
  intro fuel
  induction fuel with
  | zero =>
    intro l hle _
    have : l = [] := List.eq_nil_of_length_eq_zero (Nat.le_zero.mp hle)
    subst this
    simp [chunkGo]
  | succ f ih =>
    intro l hle hm
    match l with
    | [] => simp [chunkGo]
    | x :: xs =>
      simp only [List.length_cons] at hle hm
      have hlen : 16 ≤ xs.length + 1 := by omega
      have hrec := ih ((x :: xs).drop 16)
        (by simp only [List.length_drop, List.length_cons]; omega)
        (by simp only [List.length_drop, List.length_cons]; omega)
      have htake : ((x :: xs).take 16).length = 16 := by
        simp only [List.length_take, List.length_cons]
        omega
      refine ⟨?_, ?_⟩
      · intro b hb
        simp only [chunkGo, List.mem_cons] at hb
        rcases hb with hb | hb
        · rw [hb]; exact htake
        · exact hrec.1 b hb
      · simp only [chunkGo, List.flatten_cons, hrec.2]
        exact List.take_append_drop 16 (x :: xs)

theorem chunks_spec16 (l : List Nat) (hm : l.length % 16 = 0) :
    (∀ b ∈ chunks 16 l, b.length = 16) ∧ (chunks 16 l).flatten = l :=
  chunkGo_spec16 l.length l (Nat.le_refl _) hm

theorem chunkGo_flatten16 : ∀ (bs : List (List Nat)) (fuel : Nat),
    (∀ b ∈ bs, b.length = 16) → bs.flatten.length ≤ fuel → chunkGo 16 fuel bs.flatten = bs := by
  intro bs
  induction bs with
  | nil => intro fuel _ _; simp [chunkGo]
  | cons b rest ih =>
    intro fuel h hle
    have hb : b.length = 16 := h b (by simp)
    match b, hb with
    | y :: ys, hb =>
      have hflat : ((y :: ys) :: rest).flatten = y :: (ys ++ rest.flatten) := by simp
      rw [hflat] at hle ⊢
      have hfuel : ∃ f, fuel = f + 1 := by
        rcases fuel with _ | f
        · simp at hle
        · exact ⟨f, rfl⟩
      rcases hfuel with ⟨f, rfl⟩
      have hcons : y :: (ys ++ rest.flatten) = (y :: ys) ++ rest.flatten := by simp
      simp only [chunkGo]
      rw [hcons, take_len_append _ _ _ hb, drop_len_append _ _ _ hb]
      simp only [List.length_cons, List.length_append] at hle
      simp only [List.length_cons] at hb
      have : rest.flatten.length ≤ f := by omega
      rw [ih f (fun x hx => h x (by simp [hx])) this]

theorem chunks_flatten16 (bs : List (List Nat)) (h : ∀ b ∈ bs, b.length = 16) :
    chunks 16 bs.flatten = bs :=
  chunkGo_flatten16 bs bs.flatten.length h (Nat.le_refl _)

theorem flatten_length_mod16 : ∀ (bs : List (List Nat)), (∀ b ∈ bs, b.length = 16) →
    bs.flatten.length % 16 = 0
  | [], _ => rfl
  | b :: rest, h => by
    have hb : b.length = 16 := h b (by simp)
    have hr := flatten_length_mod16 rest (fun x hx => h x (by simp [hx]))
    simp only [List.flatten_cons, List.length_append, hb]
    omega

/-! ### PKCS7 facts -/

theorem getD_replicate_self : ∀ (n i a : Nat), i < n → (List.replicate n a).getD i 0 = a
  | 0, _, _, h => absurd h (by omega)
  | n + 1, 0, a, _ => rfl
  | n + 1, i + 1, a, h => by
      simpa [List.replicate] using getD_replicate_self n i a (by omega)

theorem pkcs7pad_length_mod (l : List Nat) : (pkcs7pad l).length % 16 = 0 := by
  simp only [pkcs7pad, List.length_append, List.length_replicate]
  omega

theorem pkcs7pad_lt (l : List Nat) (h : ∀ b ∈ l, b < 256) : ∀ b ∈ pkcs7pad l, b < 256 := by
  refine List.forall_mem_append.mpr ⟨h, ?_⟩
  intro b hb
  have := List.eq_of_mem_replicate hb
  omega

theorem pkcs7unpad_pad (l : List Nat) : pkcs7unpad (pkcs7pad l) = some l := by
  have hp1 : 1 ≤ 16 - l.length % 16 := by omega
  have hp16 : 16 - l.length % 16 ≤ 16 := by omega
  have hlen : (pkcs7pad l).length = l.length + (16 - l.length % 16) := by
    simp [pkcs7pad]
  have hgetD : (pkcs7pad l).getD ((pkcs7pad l).length - 1) 0 = 16 - l.length % 16 := by
    rw [hlen]
    unfold pkcs7pad
    rw [List.getD_append_right _ _ _ _ (by omega)]
    have hidx : l.length + (16 - l.length % 16) - 1 - l.length = (16 - l.length % 16) - 1 := by
      omega
    rw [hidx]
    exact getD_replicate_self _ _ _ (by omega)
  have hne : pkcs7pad l ≠ [] := by
    intro hcon
    have := congrArg List.length hcon
    rw [hlen] at this
    simp at this
    omega
  have hsub : (pkcs7pad l).length - (16 - l.length % 16) = l.length := by omega
  have hdrop : (pkcs7pad l).drop ((pkcs7pad l).length - (16 - l.length % 16)) =
      List.replicate (16 - l.length % 16) (16 - l.length % 16) := by
    rw [hsub]
    unfold pkcs7pad
    exact List.drop_left l _
  have htake : (pkcs7pad l).take ((pkcs7pad l).length - (16 - l.length % 16)) = l := by
    rw [hsub]
    unfold pkcs7pad
    exact List.take_left l _
  unfold pkcs7unpad
  rw [if_pos ⟨pkcs7pad_length_mod l, hne⟩, hgetD, if_pos ⟨hp1, hp16, hdrop⟩, htake]

/-! ### XOR of equal-length byte lists -/

theorem xorBytes_length (a b : List Nat) : (xorBytes a b).length = min a.length b.length := by
  simp [xorBytes]

theorem xorBytes_lt : ∀ (a b : List Nat), (∀ x ∈ a, x < 256) → (∀ x ∈ b, x < 256) →
    ∀ x ∈ xorBytes a b, x < 256
  | [], _, _, _ => by simp [xorBytes]
  | _ :: _, [], _, _ => by simp [xorBytes]
  | x :: a, y :: b, ha, hb => by
      intro z hz
      simp only [xorBytes, List.zipWith_cons_cons, List.mem_cons] at hz
      rcases hz with hz | hz
      · subst hz
        exact Nat.xor_lt_two_pow (n := 8) (ha x (by simp)) (hb y (by simp))
      · exact xorBytes_lt a b (fun t ht => ha t (by simp [ht])) (fun t ht => hb t (by simp [ht]))
          z hz

theorem xorBytes_cancel : ∀ (a b : List Nat), a.length = b.length →
    xorBytes (xorBytes a b) a = b
  | [], [], _ => rfl
  | [], _ :: _, h => by simp at h
  | _ :: _, [], h => by simp at h
  | x :: a, y :: b, h => by
      simp only [List.length_cons] at h
      simp only [xorBytes, List.zipWith_cons_cons]
      refine congrArg₂ List.cons ?_ (xorBytes_cancel a b (by omega))
      rw [Nat.xor_comm x y, Nat.xor_assoc, Nat.xor_self, Nat.xor_zero]

/-! ### CBC mode facts -/

theorem cbcEncBlocks_length (E : List Nat → List Nat → List Nat) (key : List Nat)
    (hElen : ∀ k b, b.length = 16 → (E k b).length = 16) :
    ∀ (bs : List (List Nat)) (prev : List Nat), (∀ b ∈ bs, b.length = 16) → prev.length = 16 →
      ∀ c ∈ cbcEncBlocks E key prev bs, c.length = 16
  | [], _, _, _ => by simp [cbcEncBlocks]
  | b :: bs, prev, hbs, hprev => by
      have hxlen : (xorBytes prev b).length = 16 := by
        rw [xorBytes_length, hprev, hbs b (by simp)]
        simp
      have hhead : (E key (xorBytes prev b)).length = 16 := hElen key _ hxlen
      intro c hc
      simp only [cbcEncBlocks, List.mem_cons] at hc
      rcases hc with hc | hc
      · rw [hc]; exact hhead
      · exact cbcEncBlocks_length E key hElen bs (E key (xorBytes prev b))
          (fun x hx => hbs x (by simp [hx])) hhead c hc

theorem cbcEncBlocks_lt (E : List Nat → List Nat → List Nat) (key : List Nat)
    (hEwf : ∀ k b, (∀ x ∈ b, x < 256) → ∀ x ∈ E k b, x < 256) :
    ∀ (bs : List (List Nat)) (prev : List Nat),
      (∀ b ∈ bs, ∀ x ∈ b, x < 256) → (∀ x ∈ prev, x < 256) →
      ∀ c ∈ cbcEncBlocks E key prev bs, ∀ x ∈ c, x < 256
  | [], _, _, _ => by simp [cbcEncBlocks]
  | b :: bs, prev, hbs, hprev => by
      have hhead : ∀ x ∈ E key (xorBytes prev b), x < 256 :=
        hEwf key _ (xorBytes_lt prev b hprev (hbs b (by simp)))
      intro c hc
      simp only [cbcEncBlocks, List.mem_cons] at hc
      rcases hc with hc | hc
      · rw [hc]; exact hhead
      · exact cbcEncBlocks_lt E key hEwf bs (E key (xorBytes prev b))
          (fun x hx => hbs x (by simp [hx])) hhead c hc

theorem cbcDec_cbcEnc (E D : List Nat → List Nat → List Nat) (key : List Nat)
    (hED : ∀ k b, b.length = 16 → D k (E k b) = b)
    (hElen : ∀ k b, b.length = 16 → (E k b).length = 16) :
    ∀ (bs : List (List Nat)) (prev : List Nat), (∀ b ∈ bs, b.length = 16) → prev.length = 16 →
      cbcDecBlocks D key prev (cbcEncBlocks E key prev bs) = bs
  | [], _, _, _ => rfl
  | b :: bs, prev, hbs, hprev => by
      have hxlen : (xorBytes prev b).length = 16 := by
        rw [xorBytes_length, hprev, hbs b (by simp)]
        simp
      simp only [cbcEncBlocks, cbcDecBlocks]
      rw [hED key _ hxlen]
      refine congrArg₂ List.cons ?_ ?_
      · exact xorBytes_cancel prev b (by rw [hprev, hbs b (by simp)])
      · exact cbcDec_cbcEnc E D key hED hElen bs (E key (xorBytes prev b))
          (fun x hx => hbs x (by simp [hx])) (hElen key _ hxlen)

/-! ### AES-CBC path round-trip and wrong-key behaviour -/

theorem aes_roundtrip (E D kdf : List Nat → List Nat → List Nat) (pt pwHash salt iv : List Nat)
    (hED : ∀ k b, b.length = 16 → D k (E k b) = b)
    (hElen : ∀ k b, b.length = 16 → (E k b).length = 16)
    (hEwf : ∀ k b, (∀ x ∈ b, x < 256) → ∀ x ∈ E k b, x < 256)
    (hpt : ∀ b ∈ pt, b < 256) (hsalt : ∀ b ∈ salt, b < 256) (hiv : ∀ b ∈ iv, b < 256)
    (hsaltlen : salt.length = 16) (hivlen : iv.length = 16)
    (hutf : isValidUtf8 pt = true) :
    SecureCrypto.decrypt D kdf (SecureCrypto.encrypt E kdf pt pwHash salt iv) pwHash =
      some pt := by
  have hchunks := chunks_spec16 (pkcs7pad pt) (pkcs7pad_length_mod pt)
  have hblens : ∀ b ∈ chunks 16 (pkcs7pad pt), b.length = 16 := hchunks.1
  have hctlens : ∀ c ∈ cbcEncBlocks E (kdf pwHash salt) iv (chunks 16 (pkcs7pad pt)),
      c.length = 16 :=
    cbcEncBlocks_length E _ hElen _ iv hblens hivlen
  have hctmod : (cbcEncBlocks E (kdf pwHash salt) iv
      (chunks 16 (pkcs7pad pt))).flatten.length % 16 = 0 :=
    flatten_length_mod16 _ hctlens
  have hblockswf : ∀ b ∈ chunks 16 (pkcs7pad pt), ∀ x ∈ b, x < 256 := by
    intro b hb x hx
    have hmem : x ∈ (chunks 16 (pkcs7pad pt)).flatten := List.mem_flatten.mpr ⟨b, hb, hx⟩
    rw [hchunks.2] at hmem
    exact pkcs7pad_lt pt hpt x hmem
  have hctwf : ∀ x ∈ (cbcEncBlocks E (kdf pwHash salt) iv
      (chunks 16 (pkcs7pad pt))).flatten, x < 256 := by
    intro x hx
    rcases List.mem_flatten.mp hx with ⟨c, hc, hxc⟩
    exact cbcEncBlocks_lt E _ hEwf _ iv hblockswf hiv c hc x hxc
  have hdatawf : ∀ x ∈ salt ++ (iv ++ (cbcEncBlocks E (kdf pwHash salt) iv
      (chunks 16 (pkcs7pad pt))).flatten), x < 256 :=
    List.forall_mem_append.mpr ⟨hsalt, List.forall_mem_append.mpr ⟨hiv, hctwf⟩⟩
  unfold SecureCrypto.encrypt SecureCrypto.decrypt
  rw [List.append_assoc]
  rw [show (String.mk (b64encodeBytes (salt ++ (iv ++ (cbcEncBlocks E (kdf pwHash salt) iv
        (chunks 16 (pkcs7pad pt))).flatten)))).data =
      b64encodeBytes (salt ++ (iv ++ (cbcEncBlocks E (kdf pwHash salt) iv
        (chunks 16 (pkcs7pad pt))).flatten)) from rfl,
    b64_roundtrip _ hdatawf]
  have hdrop16 : (salt ++ (iv ++ (cbcEncBlocks E (kdf pwHash salt) iv
      (chunks 16 (pkcs7pad pt))).flatten)).drop 16 =
      iv ++ (cbcEncBlocks E (kdf pwHash salt) iv (chunks 16 (pkcs7pad pt))).flatten :=
    drop_len_append _ _ _ hsaltlen
  have htake16 : (salt ++ (iv ++ (cbcEncBlocks E (kdf pwHash salt) iv
      (chunks 16 (pkcs7pad pt))).flatten)).take 16 = salt :=
    take_len_append _ _ _ hsaltlen
  have hivtake : (iv ++ (cbcEncBlocks E (kdf pwHash salt) iv
      (chunks 16 (pkcs7pad pt))).flatten).take 16 = iv :=
    take_len_append _ _ _ hivlen
  have hdrop32 : (salt ++ (iv ++ (cbcEncBlocks E (kdf pwHash salt) iv
      (chunks 16 (pkcs7pad pt))).flatten)).drop 32 =
      (cbcEncBlocks E (kdf pwHash salt) iv (chunks 16 (pkcs7pad pt))).flatten := by
    rw [(by norm_num : (32 : Nat) = 16 + 16), ← List.drop_drop, hdrop16]
    exact drop_len_append _ _ _ hivlen
  have hchct : chunks 16 (cbcEncBlocks E (kdf pwHash salt) iv
      (chunks 16 (pkcs7pad pt))).flatten =
      cbcEncBlocks E (kdf pwHash salt) iv (chunks 16 (pkcs7pad pt)) :=
    chunks_flatten16 _ hctlens
  have hdec : cbcDecBlocks D (kdf pwHash salt) iv
      (cbcEncBlocks E (kdf pwHash salt) iv (chunks 16 (pkcs7pad pt))) =
      chunks 16 (pkcs7pad pt) :=
    cbcDec_cbcEnc E D (kdf pwHash salt) hED hElen _ iv hblens hivlen
  simp only [hdrop16, htake16, hivtake, hdrop32, hivlen, hctmod, and_self, if_true, hchct,
    hdec, hchunks.2, pkcs7unpad_pad, hutf]

theorem aes_decrypt_wrong_key (E D kdf : List Nat → List Nat → List Nat)
    (pt h1 h2 salt iv : List Nat)
    (hElen : ∀ k b, b.length = 16 → (E k b).length = 16)
    (hEwf : ∀ k b, (∀ x ∈ b, x < 256) → ∀ x ∈ E k b, x < 256)
    (hpt : ∀ b ∈ pt, b < 256) (hsalt : ∀ b ∈ salt, b < 256) (hiv : ∀ b ∈ iv, b < 256)
    (hsaltlen : salt.length = 16) (hivlen : iv.length = 16) :
    SecureCrypto.decrypt D kdf (SecureCrypto.encrypt E kdf pt h1 salt iv) h2 =
      (match pkcs7unpad ((cbcDecBlocks D (kdf h2 salt) iv
            (cbcEncBlocks E (kdf h1 salt) iv (chunks 16 (pkcs7pad pt)))).flatten) with
       | none => none
       | some m => if isValidUtf8 m = true then some m else none) := by
  have hchunks := chunks_spec16 (pkcs7pad pt) (pkcs7pad_length_mod pt)
  have hblens : ∀ b ∈ chunks 16 (pkcs7pad pt), b.length = 16 := hchunks.1
  have hctlens : ∀ c ∈ cbcEncBlocks E (kdf h1 salt) iv (chunks 16 (pkcs7pad pt)),
      c.length = 16 :=
    cbcEncBlocks_length E _ hElen _ iv hblens hivlen
  have hctmod : (cbcEncBlocks E (kdf h1 salt) iv
      (chunks 16 (pkcs7pad pt))).flatten.length % 16 = 0 :=
    flatten_length_mod16 _ hctlens
  have hblockswf : ∀ b ∈ chunks 16 (pkcs7pad pt), ∀ x ∈ b, x < 256 := by
    intro b hb x hx
    have hmem : x ∈ (chunks 16 (pkcs7pad pt)).flatten := List.mem_flatten.mpr ⟨b, hb, hx⟩
    rw [hchunks.2] at hmem
    exact pkcs7pad_lt pt hpt x hmem
  have hctwf : ∀ x ∈ (cbcEncBlocks E (kdf h1 salt) iv
      (chunks 16 (pkcs7pad pt))).flatten, x < 256 := by
    intro x hx
    rcases List.mem_flatten.mp hx with ⟨c, hc, hxc⟩
    exact cbcEncBlocks_lt E _ hEwf _ iv hblockswf hiv c hc x hxc
  have hdatawf : ∀ x ∈ salt ++ (iv ++ (cbcEncBlocks E (kdf h1 salt) iv
      (chunks 16 (pkcs7pad pt))).flatten), x < 256 :=
    List.forall_mem_append.mpr ⟨hsalt, List.forall_mem_append.mpr ⟨hiv, hctwf⟩⟩
  unfold SecureCrypto.encrypt SecureCrypto.decrypt
  rw [List.append_assoc]
  rw [show (String.mk (b64encodeBytes (salt ++ (iv ++ (cbcEncBlocks E (kdf h1 salt) iv
        (chunks 16 (pkcs7pad pt))).flatten)))).data =
      b64encodeBytes (salt ++ (iv ++ (cbcEncBlocks E (kdf h1 salt) iv
        (chunks 16 (pkcs7pad pt))).flatten)) from rfl,
    b64_roundtrip _ hdatawf]
  have hdrop16 : (salt ++ (iv ++ (cbcEncBlocks E (kdf h1 salt) iv
      (chunks 16 (pkcs7pad pt))).flatten)).drop 16 =
      iv ++ (cbcEncBlocks E (kdf h1 salt) iv (chunks 16 (pkcs7pad pt))).flatten :=
    drop_len_append _ _ _ hsaltlen
  have htake16 : (salt ++ (iv ++ (cbcEncBlocks E (kdf h1 salt) iv
      (chunks 16 (pkcs7pad pt))).flatten)).take 16 = salt :=
    take_len_append _ _ _ hsaltlen
  have hivtake : (iv ++ (cbcEncBlocks E (kdf h1 salt) iv
      (chunks 16 (pkcs7pad pt))).flatten).take 16 = iv :=
    take_len_append _ _ _ hivlen
  have hdrop32 : (salt ++ (iv ++ (cbcEncBlocks E (kdf h1 salt) iv
      (chunks 16 (pkcs7pad pt))).flatten)).drop 32 =
      (cbcEncBlocks E (kdf h1 salt) iv (chunks 16 (pkcs7pad pt))).flatten := by
    rw [(by norm_num : (32 : Nat) = 16 + 16), ← List.drop_drop, hdrop16]
    exact drop_len_append _ _ _ hivlen
  have hchct : chunks 16 (cbcEncBlocks E (kdf h1 salt) iv
      (chunks 16 (pkcs7pad pt))).flatten =
      cbcEncBlocks E (kdf h1 salt) iv (chunks 16 (pkcs7pad pt)) :=
    chunks_flatten16 _ hctlens
  simp only [hdrop16, htake16, hivtake, hdrop32, hivlen, hctmod, and_self, if_true, hchct]

/-! ### Claim C1 -/

/-- C1: for every plaintext byte string `s` (valid UTF-8, as produced by
`str.encode()`) and every password hash `h`, `decrypt (encrypt s h) h`
returns `s`, on both the AES-256-CBC path (for any block cipher
`E`/`D` satisfying the inverse property, hence for AES) and the XOR
fallback path (fully concrete, with the real SHA-256). -/
theorem C1_encrypt_decrypt_round_trip
    (E D kdf : List Nat → List Nat → List Nat) (pt pwHash salt iv : List Nat)
    (hED : ∀ k b, b.length = 16 → D k (E k b) = b)
    (hElen : ∀ k b, b.length = 16 → (E k b).length = 16)
    (hEwf : ∀ k b, (∀ x ∈ b, x < 256) → ∀ x ∈ E k b, x < 256)
    (hpt : ∀ b ∈ pt, b < 256) (hsalt : ∀ b ∈ salt, b < 256) (hiv : ∀ b ∈ iv, b < 256)
    (hsaltlen : salt.length = 16) (hivlen : iv.length = 16)
    (hutf : isValidUtf8 pt = true) :
    SecureCrypto.decrypt D kdf (SecureCrypto.encrypt E kdf pt pwHash salt iv) pwHash = some pt ∧
    SecureCrypto.simple_decrypt (SecureCrypto.simple_encrypt pt pwHash salt) pwHash = some pt :=
  ⟨aes_roundtrip E D kdf pt pwHash salt iv hED hElen hEwf hpt hsalt hiv hsaltlen hivlen hutf,
   simple_roundtrip pt pwHash salt hpt hsalt hsaltlen hutf⟩

/-- Witness for C1 at a concrete input (identity block cipher, constant
key derivation, plaintext bytes of the string hi). -/
theorem C1_encrypt_decrypt_round_trip_witness :
    SecureCrypto.decrypt (fun _ b => b) (fun _ _ => [])
      (SecureCrypto.encrypt (fun _ b => b) (fun _ _ => []) [104, 105] [97]
        (List.replicate 16 0) (List.replicate 16 1)) [97] = some [104, 105] ∧
    SecureCrypto.simple_decrypt (SecureCrypto.simple_encrypt [104, 105] [97]
      (List.replicate 16 0)) [97] = some [104, 105] :=
  C1_encrypt_decrypt_round_trip (fun _ b => b) (fun _ b => b) (fun _ _ => [])
    [104, 105] [97] (List.replicate 16 0) (List.replicate 16 1)
    (fun _ _ _ => rfl) (fun _ _ h => h) (fun _ _ h => h)
    (by decide) (by decide) (by decide) (by decide) (by decide) (by decide)

/-! ### Claim C2 -/

/-- C2 counterexample: on the XOR fallback path a wrong-key decryption
can return a non-null string different from the plaintext, so the claim
that `decrypt(encrypt(s, h1), h2)` always returns null fails.  With
plaintext byte `65`, password hashes `97` and `98` (the strings a and
b) and a zero salt, decryption under the wrong hash returns the byte
`75` (the string K). -/
theorem C2_wrong_key_counterexample :
    SecureCrypto.simple_decrypt
        (SecureCrypto.simple_encrypt [65] [97] (List.replicate 16 0)) [98] = some [75] ∧
    ([75] : List Nat) ≠ [65] ∧ ([97] : List Nat) ≠ [98] :=
  ⟨by decide, by decide, by decide⟩

/-- C2 (amended): wrong-key decryption never raises, and its result is
exactly characterized by the structural checks the source performs: on
the XOR fallback path it returns null precisely when the re-XORed bytes
are not valid UTF-8 (otherwise it silently returns those incorrect
bytes); on the AES path it returns null precisely when PKCS7 unpadding
of the wrong-key CBC decryption or UTF-8 validation fails.  There is no
integrity check beyond padding and UTF-8 structure. -/
theorem C2_wrong_key_rejection_amended
    (E D kdf : List Nat → List Nat → List Nat) (pt h1 h2 salt iv : List Nat)
    (hElen : ∀ k b, b.length = 16 → (E k b).length = 16)
    (hEwf : ∀ k b, (∀ x ∈ b, x < 256) → ∀ x ∈ E k b, x < 256)
    (hpt : ∀ b ∈ pt, b < 256) (hsalt : ∀ b ∈ salt, b < 256) (hiv : ∀ b ∈ iv, b < 256)
    (hsaltlen : salt.length = 16) (hivlen : iv.length = 16) :
    SecureCrypto.simple_decrypt (SecureCrypto.simple_encrypt pt h1 salt) h2 =
      (if isValidUtf8 (xorWithKey (sha256 (h2 ++ hexBytes salt)) 0
            (xorWithKey (sha256 (h1 ++ hexBytes salt)) 0 pt)) = true
       then some (xorWithKey (sha256 (h2 ++ hexBytes salt)) 0
            (xorWithKey (sha256 (h1 ++ hexBytes salt)) 0 pt))
       else none) ∧
    SecureCrypto.decrypt D kdf (SecureCrypto.encrypt E kdf pt h1 salt iv) h2 =
      (match pkcs7unpad ((cbcDecBlocks D (kdf h2 salt) iv
            (cbcEncBlocks E (kdf h1 salt) iv (chunks 16 (pkcs7pad pt)))).flatten) with
       | none => none
       | some m => if isValidUtf8 m = true then some m else none) :=
  ⟨simple_decrypt_wrong_key pt h1 h2 salt hpt hsalt hsaltlen,
   aes_decrypt_wrong_key E D kdf pt h1 h2 salt iv hElen hEwf hpt hsalt hiv hsaltlen hivlen⟩

/-- Witness for C2 (amended) at a concrete input. -/
theorem C2_wrong_key_rejection_amended_witness :
    SecureCrypto.simple_decrypt
        (SecureCrypto.simple_encrypt [65] [97] (List.replicate 16 0)) [98] =
      (if isValidUtf8 (xorWithKey (sha256 ([98] ++ hexBytes (List.replicate 16 0))) 0
            (xorWithKey (sha256 ([97] ++ hexBytes (List.replicate 16 0))) 0 [65])) = true
       then some (xorWithKey (sha256 ([98] ++ hexBytes (List.replicate 16 0))) 0
            (xorWithKey (sha256 ([97] ++ hexBytes (List.replicate 16 0))) 0 [65]))
       else none) ∧
    SecureCrypto.decrypt (fun _ b => b) (fun _ _ => [])
        (SecureCrypto.encrypt (fun _ b => b) (fun _ _ => []) [65] [97]
          (List.replicate 16 0) (List.replicate 16 1)) [98] =
      (match pkcs7unpad ((cbcDecBlocks (fun _ b => b) ((fun _ _ => ([] : List Nat)) [98]
            (List.replicate 16 0)) (List.replicate 16 1)
            (cbcEncBlocks (fun _ b => b) ((fun _ _ => ([] : List Nat)) [97]
              (List.replicate 16 0)) (List.replicate 16 1)
              (chunks 16 (pkcs7pad [65])))).flatten) with
       | none => none
       | some m => if isValidUtf8 m = true then some m else none) :=
  C2_wrong_key_rejection_amended (fun _ b => b) (fun _ b => b) (fun _ _ => [])
    [65] [97] [98] (List.replicate 16 0) (List.replicate 16 1)
    (fun _ _ h => h) (fun _ _ h => h)
    (by decide) (by decide) (by decide) (by decide) (by decide)

/-! ### Session layer facts -/

theorem getSessionData_noSession_missing (f : SessFile) (now : Int)
    (h : (SecureSession.getSessionData f now).1 = GetOutcome.noSession) :
    (SecureSession.getSessionData f now).2 = SessFile.missing := by
  cases f with
  | missing => rfl
  | invalidJson => rfl
  | jsonNonDict => simp [SecureSession.getSessionData] at h
  | dictBadExpiry k =>
    cases k with
    | missingKey => rfl
    | notString => simp [SecureSession.getSessionData] at h
    | notIso => rfl
  | valid r =>
    by_cases hc : now > r.expires_at
    · simp [SecureSession.getSessionData, hc]
    · simp [SecureSession.getSessionData, hc] at h

theorem getSessionData_noSession_pair (f : SessFile) (now : Int)
    (h : (SecureSession.getSessionData f now).1 = GetOutcome.noSession) :
    SecureSession.getSessionData f now = (GetOutcome.noSession, SessFile.missing) := by
  have h2 := getSessionData_noSession_missing f now h
  cases hsd : SecureSession.getSessionData f now with
  | mk o f2 =>
    rw [hsd] at h h2
    simp at h h2
    rw [h, h2]

/-! ### Claim C3 -/

/-- C3 counterexample: at the boundary instant `now = expires_at` the
source treats the session as still valid (`datetime.now() > expires_at`
is false), so "valid exactly when now < expires_at" fails: here
`is_authenticated` returns true and the file survives although
`now < expires_at` does not hold. -/
theorem C3_session_validity_counterexample :
    (SecureSession.isAuthenticated
        (SessFile.valid ⟨(r"h"), 0, 100, 0⟩) 100).1 = Except.ok true ∧
    (SecureSession.getSessionData (SessFile.valid ⟨(r"h"), 0, 100, 0⟩) 100).2 =
      SessFile.valid ⟨(r"h"), 0, 100, 0⟩ ∧
    ¬ ((100 : Int) < 100) :=
  ⟨rfl, rfl, by decide⟩

/-- C3 (amended): a stored session is treated as valid exactly while
`now ≤ expires_at` (the code deletes it and reports not-authenticated
only when `now` is strictly past `expires_at`). -/
theorem C3_session_validity_amended (r : SessionRecord) (now : Int) :
    ((SecureSession.isAuthenticated (SessFile.valid r) now).1 = Except.ok true ↔
      now ≤ r.expires_at) ∧
    SecureSession.getSessionData (SessFile.valid r) now =
      (if now > r.expires_at then (GetOutcome.noSession, SessFile.missing)
       else (GetOutcome.ok r, SessFile.valid r)) := by
  constructor
  · unfold SecureSession.isAuthenticated SecureSession.getSessionData
    by_cases hc : now > r.expires_at
    · simp [hc]
    · simp [hc]
      omega
  · unfold SecureSession.getSessionData
    rfl

/-! ### Claim C4 -/

/-- C4: the fail-closed property fails on a session file whose content
is valid JSON but not an object (for example `[1, 2, 3]`): `data.get`
raises `AttributeError`, the `except` clause does not catch it, the
exception escapes `is_authenticated`, and the file is not deleted. -/
theorem C4_corrupted_session_raises :
    SecureSession.getSessionData SessFile.jsonNonDict 0 =
      (GetOutcome.raised (r"AttributeError"), SessFile.jsonNonDict) ∧
    (SecureSession.isAuthenticated SessFile.jsonNonDict 0).1 =
      Except.error (r"AttributeError") :=
  ⟨rfl, rfl⟩

/-! ### Claim C5 -/

/-- C5: with a stored credential, no valid session, and three non-empty
password entries all hashing to something other than the stored hash,
`authenticate` returns false, writes no session (the file ends up
absent), and consumes exactly three prompts — the fourth entry of the
input stream is untouched. -/
theorem C5_lockout (hp : String → String) (sh : String) (storeOk : Bool) (ttl : Int)
    (f : SessFile) (now : Int) (p1 p2 p3 : String) (rest : List String)
    (hns : (SecureSession.getSessionData f now).1 = GetOutcome.noSession)
    (h1 : p1 ≠ (r"")) (h2 : p2 ≠ (r"")) (h3 : p3 ≠ (r""))
    (hw1 : hp p1 ≠ sh) (hw2 : hp p2 ≠ sh) (hw3 : hp p3 ≠ sh) :
    SecureSession.authenticate hp (some sh) storeOk ttl f now (p1 :: p2 :: p3 :: rest) false =
      SecureSession.AuthOut.ok false SessFile.missing rest := by
  have hpair := getSessionData_noSession_pair f now hns
  unfold SecureSession.authenticate
  rw [if_neg (by simp), hpair]
  simp [SecureSession.authLoop, SecureSession.promptTake, h1, h2, h3, hw1, hw2, hw3]

/-- Witness for C5 at a concrete input. -/
theorem C5_lockout_witness :
    SecureSession.authenticate (fun s => s) (some (r"zz")) true 60 SessFile.missing 0
      ((r"a") :: (r"b") :: (r"c") :: [(r"d")]) false =
      SecureSession.AuthOut.ok false SessFile.missing [(r"d")] :=
  C5_lockout (fun s => s) (r"zz") true 60 SessFile.missing 0 (r"a") (r"b") (r"c") [(r"d")]
    rfl (by decide) (by decide) (by decide) (by decide) (by decide) (by decide)

/-! ### Claim C10 -/

/-- C10: on a valid session, `extend_session m` sets the new expiry to
the previously stored expiry plus `m` minutes (`m` defaults to the
configured TTL when omitted), so repeated extensions accumulate; with
no valid session it returns false and writes nothing. -/
theorem C10_extend_session (ttl : Int) (r : SessionRecord) (now now2 m m2 : Int) (f : SessFile)
    (hvalid : ¬ now > r.expires_at)
    (hvalid2 : ¬ now2 > r.expires_at + m)
    (hns : (SecureSession.getSessionData f now).1 = GetOutcome.noSession) :
    SecureSession.extendSession ttl (SessFile.valid r) now (some m) =
      SecureSession.ExtOut.ok true (SessFile.valid { r with expires_at := r.expires_at + m }) ∧
    SecureSession.extendSession ttl (SessFile.valid r) now none =
      SecureSession.ExtOut.ok true (SessFile.valid { r with expires_at := r.expires_at + ttl }) ∧
    SecureSession.extendSession ttl
        (SessFile.valid { r with expires_at := r.expires_at + m }) now2 (some m2) =
      SecureSession.ExtOut.ok true
        (SessFile.valid { r with expires_at := r.expires_at + m + m2 }) ∧
    SecureSession.extendSession ttl f now (some m) =
      SecureSession.ExtOut.ok false SessFile.missing := by
  have hpair := getSessionData_noSession_pair f now hns
  refine ⟨?_, ?_, ?_, ?_⟩
  · unfold SecureSession.extendSession SecureSession.getSessionData
    simp [hvalid]
  · unfold SecureSession.extendSession SecureSession.getSessionData
    simp [hvalid]
  · unfold SecureSession.extendSession SecureSession.getSessionData
    simp [hvalid2]
  · unfold SecureSession.extendSession
    rw [hpair]

/-- Witness for C10 at a concrete input. -/
theorem C10_extend_session_witness :
    SecureSession.extendSession 60 (SessFile.valid ⟨(r"h"), 0, 100, 0⟩) 0 (some 5) =
      SecureSession.ExtOut.ok true (SessFile.valid ⟨(r"h"), 0, 105, 0⟩) ∧
    SecureSession.extendSession 60 (SessFile.valid ⟨(r"h"), 0, 100, 0⟩) 0 none =
      SecureSession.ExtOut.ok true (SessFile.valid ⟨(r"h"), 0, 160, 0⟩) ∧
    SecureSession.extendSession 60 (SessFile.valid ⟨(r"h"), 0, 105, 0⟩) 0 (some 7) =
      SecureSession.ExtOut.ok true (SessFile.valid ⟨(r"h"), 0, 112, 0⟩) ∧
    SecureSession.extendSession 60 SessFile.missing 0 (some 5) =
      SecureSession.ExtOut.ok false SessFile.missing :=
  C10_extend_session 60 ⟨(r"h"), 0, 100, 0⟩ 0 0 5 7 SessFile.missing
    (by decide) (by decide) rfl

/-! ### Store layer facts -/

theorem lookupVar_updateVar_self : ∀ (l : List (String × SecureVarRecord)) (name : String)
    (v v' : SecureVarRecord), lookupVar name l = some v →
    lookupVar name (updateVar name v' l) = some v'
  | [], _, _, _, h => by simp [lookupVar] at h
  | (n, w) :: rest, name, v, v', h => by
      by_cases hn : n = name
      · simp [lookupVar, updateVar, hn]
      · simp only [lookupVar, updateVar, if_neg hn] at h ⊢
        exact lookupVar_updateVar_self rest name v v' h

/-! ### Claim C6 -/

/-- C6: with a valid session and an existing variable record, a
successful decryption makes `get_secure_variable` return the plaintext
and persist (save flag set) exactly the stat update — `used_count`
incremented by one and `last_accessed` set to now — while a failed
decryption returns null and leaves the store byte-for-byte unchanged
with no save. -/
theorem C6_get_variable_stats (dec : String → String → Option String) (hp : String → String)
    (storedHash : Option String) (storeOk : Bool) (ttl : Int) (r : SessionRecord)
    (store : SecureData) (name : String) (now : Int) (inputs : List String)
    (v : SecureVarRecord)
    (hvalid : ¬ now > r.expires_at) (hph : r.password_hash ≠ (r""))
    (hlook : lookupVar name store.secure_variables = some v) :
    (∀ d, dec v.encrypted_value r.password_hash = some d →
      SecureVariableManager.getSecureVariable dec hp storedHash storeOk ttl
          (SessFile.valid r) store name now inputs =
        ⟨some d, SessFile.valid r,
         { store with
            secure_variables := updateVar name
                                  { v with used_count := some (v.used_count.getD 0 + 1),
                                           last_accessed := some now }
                                  store.secure_variables },
         true, inputs, none⟩) ∧
    (dec v.encrypted_value r.password_hash = none →
      SecureVariableManager.getSecureVariable dec hp storedHash storeOk ttl
          (SessFile.valid r) store name now inputs =
        ⟨none, SessFile.valid r, store, false, inputs, none⟩) := by
  constructor
  · intro d hd
    unfold SecureVariableManager.getSecureVariable SecureVariableManager.getAfterAuth
      SecureSession.isAuthenticated SecureSession.getSessionData
    simp [hvalid, hph, hlook, hd]
  · intro hd
    unfold SecureVariableManager.getSecureVariable SecureVariableManager.getAfterAuth
      SecureSession.isAuthenticated SecureSession.getSessionData
    simp [hvalid, hph, hlook, hd]

/-- Witness for C6 at a concrete input (both the success and the
failure branch of decryption). -/
theorem C6_get_variable_stats_witness :
    SecureVariableManager.getSecureVariable (fun _ _ => some (r"x")) (fun s => s) none true 60
        (SessFile.valid exampleSessionRecord) exampleStore (r"k") 0 [] =
      ⟨some (r"x"), SessFile.valid exampleSessionRecord,
       { exampleStore with
          secure_variables := updateVar (r"k")
                                { exampleRecord with
                                   used_count := some (exampleRecord.used_count.getD 0 + 1),
                                   last_accessed := some 0 }
                                exampleStore.secure_variables },
       true, [], none⟩ ∧
    SecureVariableManager.getSecureVariable (fun _ _ => none) (fun s => s) none true 60
        (SessFile.valid exampleSessionRecord) exampleStore (r"k") 0 [] =
      ⟨none, SessFile.valid exampleSessionRecord, exampleStore, false, [], none⟩ :=
  ⟨(C6_get_variable_stats (fun _ _ => some (r"x")) (fun s => s) none true 60
      exampleSessionRecord exampleStore (r"k") 0 [] exampleRecord (by decide) (by decide)
      (by decide)).1 (r"x") rfl,
   (C6_get_variable_stats (fun _ _ => none) (fun s => s) none true 60
      exampleSessionRecord exampleStore (r"k") 0 [] exampleRecord (by decide) (by decide)
      (by decide)).2 rfl⟩

/-! ### Claim C7 -/

/-- C7: for an existing record, supplying `default_value = ""` removes
the stored `encrypted_default` entirely; omitting `default_value`
(`None`) leaves the stored default untouched whatever else is updated;
and a field that is not supplied (here description and value) is never
re-encrypted or replaced whatever `default_value` does. -/
theorem C7_update_default_clearing (enc : String → String → String) (hp : String → String)
    (storedHash : Option String) (storeOk : Bool) (ttl : Int) (r : SessionRecord)
    (store : SecureData) (name : String) (desc val : Option String) (now : Int)
    (inputs : List String) (v : SecureVarRecord)
    (hvalid : ¬ now > r.expires_at) (hph : r.password_hash ≠ (r""))
    (hlook : lookupVar name store.secure_variables = some v) :
    lookupVar name (SecureVariableManager.updateSecureVariable enc hp storedHash storeOk ttl
        (SessFile.valid r) store name none none (some (r"")) now inputs).store.secure_variables =
      some { v with encrypted_default := none, last_modified := some now } ∧
    (lookupVar name (SecureVariableManager.updateSecureVariable enc hp storedHash storeOk ttl
        (SessFile.valid r) store name desc val none now inputs).store.secure_variables).map
        (fun w => w.encrypted_default) = some v.encrypted_default ∧
    (∀ dflt, (lookupVar name (SecureVariableManager.updateSecureVariable enc hp storedHash
        storeOk ttl (SessFile.valid r) store name none none dflt now
        inputs).store.secure_variables).map
        (fun w => (w.encrypted_description, w.encrypted_value)) =
      some (v.encrypted_description, v.encrypted_value)) := by
  refine ⟨?_, ?_, ?_⟩
  · unfold SecureVariableManager.updateSecureVariable SecureVariableManager.updateAfterAuth
      SecureSession.isAuthenticated SecureSession.getSessionData
    simp only [hvalid, if_false, ite_false]
    simp [hvalid, hph, hlook, truthy,
      lookupVar_updateVar_self store.secure_variables name v _ hlook]
  · unfold SecureVariableManager.updateSecureVariable SecureVariableManager.updateAfterAuth
      SecureSession.isAuthenticated SecureSession.getSessionData
    simp [hvalid, hph, hlook, lookupVar_updateVar_self store.secure_variables name v _ hlook]
    cases htd : truthy desc <;> cases htv : truthy val <;> simp
  · intro dflt
    unfold SecureVariableManager.updateSecureVariable SecureVariableManager.updateAfterAuth
      SecureSession.isAuthenticated SecureSession.getSessionData
    simp [hvalid, hph, hlook, truthy,
      lookupVar_updateVar_self store.secure_variables name v _ hlook]
    rcases dflt with _ | dv
    · simp
    · by_cases hdv : dv = (r"")
      · simp [hdv]
      · simp [hdv]

/-- Witness for C7 at a concrete input. -/
theorem C7_update_default_clearing_witness :
    lookupVar (r"k") (SecureVariableManager.updateSecureVariable (fun p _ => p) (fun s => s)
        none true 60 (SessFile.valid exampleSessionRecord) exampleStore (r"k") none none
        (some (r"")) 0 []).store.secure_variables =
      some { exampleRecord with encrypted_default := none, last_modified := some 0 } ∧
    (lookupVar (r"k") (SecureVariableManager.updateSecureVariable (fun p _ => p) (fun s => s)
        none true 60 (SessFile.valid exampleSessionRecord) exampleStore (r"k")
        (some (r"newdesc")) none none 0 []).store.secure_variables).map
        (fun w => w.encrypted_default) = some exampleRecord.encrypted_default ∧
    (∀ dflt, (lookupVar (r"k") (SecureVariableManager.updateSecureVariable (fun p _ => p)
        (fun s => s) none true 60 (SessFile.valid exampleSessionRecord) exampleStore (r"k")
        none none dflt 0 []).store.secure_variables).map
        (fun w => (w.encrypted_description, w.encrypted_value)) =
      some (exampleRecord.encrypted_description, exampleRecord.encrypted_value)) :=
  C7_update_default_clearing (fun p _ => p) (fun s => s) none true 60 exampleSessionRecord
    exampleStore (r"k") (some (r"newdesc")) none 0 [] exampleRecord (by decide) (by decide)
    (by decide)

/-! ### Claim C9 -/

/-- C9: updating an existing variable with description, value and
default all omitted still succeeds: it returns true, stamps both the
record's and the store metadata's `last_modified`, and saves the store
file, while every encrypted field stays unchanged. -/
theorem C9_update_no_fields (enc : String → String → String) (hp : String → String)
    (storedHash : Option String) (storeOk : Bool) (ttl : Int) (r : SessionRecord)
    (store : SecureData) (name : String) (now : Int) (inputs : List String)
    (v : SecureVarRecord)
    (hvalid : ¬ now > r.expires_at) (hph : r.password_hash ≠ (r""))
    (hlook : lookupVar name store.secure_variables = some v) :
    SecureVariableManager.updateSecureVariable enc hp storedHash storeOk ttl
        (SessFile.valid r) store name none none none now inputs =
      ⟨true, SessFile.valid r,
       { store with
          secure_variables := updateVar name { v with last_modified := some now }
                                store.secure_variables,
          metadata := { store.metadata with last_modified := some now } },
       true, inputs, none⟩ := by
  unfold SecureVariableManager.updateSecureVariable SecureVariableManager.updateAfterAuth
    SecureSession.isAuthenticated SecureSession.getSessionData
  simp [hvalid, hph, hlook, truthy]

/-- Witness for C9 at a concrete input. -/
theorem C9_update_no_fields_witness :
    SecureVariableManager.updateSecureVariable (fun p _ => p) (fun s => s) none true 60
        (SessFile.valid exampleSessionRecord) exampleStore (r"k") none none none 0 [] =
      ⟨true, SessFile.valid exampleSessionRecord,
       { exampleStore with
          secure_variables := updateVar (r"k")
                                { exampleRecord with last_modified := some 0 }
                                exampleStore.secure_variables,
          metadata := { exampleStore.metadata with last_modified := some 0 } },
       true, [], none⟩ :=
  C9_update_no_fields (fun p _ => p) (fun s => s) none true 60 exampleSessionRecord
    exampleStore (r"k") 0 [] exampleRecord (by decide) (by decide) (by decide)

/-! ### Claim C8 -/

theorem logAuditEvent_eq (log : List SecureVariableManager.AuditEvent)
    (e : SecureVariableManager.AuditEvent) :
    SecureVariableManager.logAuditEvent log e =
      (log ++ [e]).drop ((log ++ [e]).length - 100) := by
  unfold SecureVariableManager.logAuditEvent
  split
  · rfl
  · next h =>
    have hz : (log ++ [e]).length - 100 = 0 := by omega
    rw [hz, List.drop_zero]

theorem foldl_logAuditEvent : ∀ (es : List SecureVariableManager.AuditEvent)
    (start : List SecureVariableManager.AuditEvent), start.length ≤ 100 →
    es.foldl SecureVariableManager.logAuditEvent start =
      (start ++ es).drop ((start ++ es).length - 100)
  | [], start, h => by
      simp [Nat.sub_eq_zero_of_le h]
  | e :: es, start, h => by
      rw [List.foldl_cons, logAuditEvent_eq]
      have hlen : ((start ++ [e]).drop ((start ++ [e]).length - 100)).length ≤ 100 := by
        simp only [List.length_drop, List.length_append]
        omega
      rw [foldl_logAuditEvent es _ hlen]
      have hk : (start ++ [e]).length - 100 ≤ (start ++ [e]).length := Nat.sub_le _ _
      rw [← List.drop_append_of_le_length hk, List.drop_drop]
      have hassoc : (start ++ [e]) ++ es = start ++ e :: es := by simp
      rw [hassoc]
      congr 1
      simp only [List.length_drop, List.length_append, List.length_cons, List.length_nil]
      omega

/-- C8: after any sequence of logged events the in-memory audit log is
exactly the suffix of the most recent 100 events in append order (the
whole sequence while at most 100 events have been logged), and in
particular never holds more than 100 events. -/
theorem C8_audit_log_bounded (es : List SecureVariableManager.AuditEvent) :
    es.foldl SecureVariableManager.logAuditEvent [] = es.drop (es.length - 100) ∧
    (es.foldl SecureVariableManager.logAuditEvent []).length ≤ 100 := by
  have h := foldl_logAuditEvent es [] (by simp)
  simp only [List.nil_append] at h
  refine ⟨h, ?_⟩
  rw [h]
  simp only [List.length_drop]
  omega
